import Mathlib

/-!
Formal model of the EzBrowser presence registry and heartbeat protocol.

The registry side (file server.py) keeps a global in-memory list of server
records, where each record is a JSON object (a Python dict).  We embed the
records as association lists from field names to values, with Python dict
semantics: lookup finds the first binding, assignment replaces the binding
in place (keeping its position) or appends a new binding at the end.  The
value universe is restricted to the strings and integers that actually flow
through the protocol.  Timestamps (Python time.time) are modelled as
integers; all claims about the liveness window only compare timestamps with
integer offsets.

The client side (file ez_browser.py) contributes the heartbeat loop
(_hb_loop), the heartbeat supervisor (manual_start_heartbeat,
manual_stop_heartbeat over the hb_threads table of threading.Event
objects), and the launch orchestrator (launch_selected).  These are
embedded as pure functions producing explicit event traces or explicit
state transitions.
-/

namespace EzBrowser

/-- Value universe for JSON object fields used by the protocol: strings and
integers. -/
inductive Val where
  | str : String → Val
  | int : Int → Val
deriving DecidableEq

/-- A Python dict as an ordered association list from field names to values. -/
abbrev Dict := List (String × Val)

/-- Lookup in an association list: first binding wins (Python dict access). -/
def lookupA {α : Type} : List (String × α) → String → Option α
  | [], _ => none
  | kv :: rest, k => if kv.1 = k then some kv.2 else lookupA rest k

/-- Assignment in an association list: replaces the first binding in place,
or appends at the end (Python dict item assignment). -/
def setA {α : Type} : List (String × α) → String → α → List (String × α)
  | [], k, v => [(k, v)]
  | kv :: rest, k, v => if kv.1 = k then (k, v) :: rest else kv :: setA rest k v

/-- Field access on a record, as an Option (Python raises on a missing key;
reachable states access only keys that are present). -/
def dictGet (d : Dict) (k : String) : Option Val := lookupA d k

/-- Field assignment on a record. -/
def dictSet (d : Dict) (k : String) (v : Val) : Dict := setA d k v

/-- Python dict.update: assign every binding of the other dict in order. -/
def dictUpdate (d other : Dict) : Dict :=
  other.foldl (fun acc kv => dictSet acc kv.1 kv.2) d

/-! ## Registry model (server.py) -/

/-- Required announce fields checked by add_server (server.py line 12). -/
def requiredFields : List String := ["name", "public_ip", "port", "map"]

/-- Validation performed by add_server (server.py line 13): every required
field must be present in the payload.  Note that only presence is checked;
the value bound to the port field is never inspected. -/
def validB (data : Dict) : Bool :=
  requiredFields.all (fun f => (dictGet data f).isSome)

/-- Match condition of the update loop (server.py line 19): the stored
record and the payload agree on the public_ip and port fields. -/
def keyMatch (s data : Dict) : Bool :=
  decide (dictGet s "public_ip" = dictGet data "public_ip") &&
    decide (dictGet s "port" = dictGet data "port")

/-- Update of a matched record (server.py lines 20-21): merge the payload
into the record, then set last_seen to the current time. -/
def upd (s data : Dict) (now : Int) : Dict :=
  dictSet (dictUpdate s data) "last_seen" (Val.int now)

/-- The for-loop of add_server (server.py lines 17-23): update the first
record matching the payload key and stop; none when no record matches. -/
def updateList : List Dict → Dict → Int → Option (List Dict)
  | [], _, _ => none
  | s :: rest, data, now =>
    if keyMatch s data then some (upd s data now :: rest)
    else (updateList rest data now).map (fun l => s :: l)

/-- The add_server request handler (server.py lines 8-29), as a function
from the stored list, the payload and the current time to the new stored
list and the HTTP status code. -/
def add_server (servers : List Dict) (data : Dict) (now : Int) : List Dict × Nat :=
  if validB data then
    match updateList servers data now with
    | some l => (l, 200)
    | none => (servers ++ [dictSet data "last_seen" (Val.int now)], 200)
  else (servers, 400)

/-- Python s.get with a default of 0 (server.py line 35). -/
def lastSeenVal (s : Dict) : Val := (dictGet s "last_seen").getD (Val.int 0)

/-- Freshness predicate of get_servers (server.py line 35): now minus
last_seen is strictly below 60.  A record whose last_seen is bound to a
non-integer would make Python raise a TypeError; such records are
unreachable (last_seen is only ever written by the server itself), and the
embedding marks them stale. -/
def freshB (now : Int) (s : Dict) : Bool :=
  match lastSeenVal s with
  | Val.int t => decide (now - t < 60)
  | Val.str _ => false

/-- The get_servers request handler (server.py lines 31-36), as a function
from the stored list and the current time to the (unchanged) stored list
and the response body. -/
def get_servers (servers : List Dict) (now : Int) : List Dict × List Dict :=
  (servers, servers.filter (fun s => freshB now s))

/-- Identity key of a stored record: its public_ip and port fields. -/
def keyOf (s : Dict) : Option Val × Option Val :=
  (dictGet s "public_ip", dictGet s "port")

/-- The uniqueness invariant: all stored records have pairwise distinct
(public_ip, port) keys. -/
def pairwiseKeys (l : List Dict) : Prop :=
  l.Pairwise (fun a b => keyOf a ≠ keyOf b)

instance (l : List Dict) : Decidable (pairwiseKeys l) := by
  unfold pairwiseKeys
  exact List.instDecidablePairwise l

/-- Folding a sequence of announce calls (payload and arrival time pairs)
into the store. -/
def runAnns (store : List Dict) (anns : List (Dict × Int)) : List Dict :=
  anns.foldl (fun st a => (add_server st a.1 a.2).1) store

/-- Spec-side notion used by claim C3 only: a value that is a positive
integer.  The spec requires announce validation to reject a malformed port
(one that is not a positive integer); this definition follows the spec
wording so that it can be compared with the code-side validB. -/
def isPositiveIntVal : Val → Bool
  | Val.int n => decide (0 < n)
  | Val.str _ => false

/-! ## Association-list lemmas -/

theorem lookupA_setA_self {α : Type} (l : List (String × α)) (k : String) (v : α) :
    lookupA (setA l k v) k = some v := by
  induction l with
  | nil => simp [setA, lookupA]
  | cons kv rest ih =>
    by_cases h : kv.1 = k
    · simp [setA, h, lookupA]
    · simp [setA, h, lookupA, ih]

theorem lookupA_setA_ne {α : Type} (l : List (String × α)) (k k2 : String) (v : α)
    (h : k2 ≠ k) : lookupA (setA l k v) k2 = lookupA l k2 := by
  have hk : k ≠ k2 := Ne.symm h
  induction l with
  | nil => simp [setA, lookupA, hk]
  | cons kv rest ih =>
    by_cases hkv : kv.1 = k
    · subst hkv
      simp [setA, lookupA, hk]
    · by_cases hkv2 : kv.1 = k2
      · simp [setA, hkv, lookupA, hkv2, h]
      · simp [setA, hkv, lookupA, hkv2, ih]

theorem lookupA_eq_none_of_not_mem {α : Type} (l : List (String × α)) (k : String)
    (h : k ∉ l.map Prod.fst) : lookupA l k = none := by
  induction l with
  | nil => simp [lookupA]
  | cons kv rest ih =>
    simp only [List.map_cons, List.mem_cons, not_or] at h
    have hne : kv.1 ≠ k := fun hh => h.1 hh.symm
    simp [lookupA, hne, ih h.2]

theorem dictGet_dictSet_self (d : Dict) (k : String) (v : Val) :
    dictGet (dictSet d k v) k = some v :=
  lookupA_setA_self d k v

theorem dictGet_dictSet_ne (d : Dict) (k k2 : String) (v : Val) (h : k2 ≠ k) :
    dictGet (dictSet d k v) k2 = dictGet d k2 :=
  lookupA_setA_ne d k k2 v h

theorem dictUpdate_cons (d : Dict) (kv : String × Val) (rest : Dict) :
    dictUpdate d (kv :: rest) = dictUpdate (dictSet d kv.1 kv.2) rest := by
  simp [dictUpdate]

theorem dictGet_dictUpdate_of_none (other : Dict) :
    ∀ (d : Dict) (k : String), dictGet other k = none →
      dictGet (dictUpdate d other) k = dictGet d k := by
  induction other with
  | nil =>
    intro d k _
    simp [dictUpdate]
  | cons kv rest ih =>
    intro d k h
    have hne : kv.1 ≠ k := by
      intro hh
      simp [dictGet, lookupA, hh] at h
    have hrest : dictGet rest k = none := by
      simpa [dictGet, lookupA, hne] using h
    rw [dictUpdate_cons, ih _ _ hrest]
    exact dictGet_dictSet_ne d kv.1 k kv.2 (fun hh => hne hh.symm)

theorem dictGet_dictUpdate_of_some (other : Dict) :
    ∀ (d : Dict) (k : String) (v : Val), (other.map Prod.fst).Nodup →
      dictGet other k = some v → dictGet (dictUpdate d other) k = some v := by
  induction other with
  | nil =>
    intro d k v _ h
    simp [dictGet, lookupA] at h
  | cons kv rest ih =>
    intro d k v hnd h
    simp only [List.map_cons, List.nodup_cons] at hnd
    by_cases hk : kv.1 = k
    · subst hk
      have hv : v = kv.2 := by
        simp [dictGet, lookupA] at h
        exact h.symm
      subst hv
      have hrest : dictGet rest kv.1 = none :=
        lookupA_eq_none_of_not_mem rest kv.1 hnd.1
      rw [dictUpdate_cons, dictGet_dictUpdate_of_none _ _ _ hrest]
      exact dictGet_dictSet_self d kv.1 kv.2
    · have hrest : dictGet rest k = some v := by
        simpa [dictGet, lookupA, hk] using h
      rw [dictUpdate_cons]
      exact ih _ _ _ hnd.2 hrest

theorem dictGet_upd_lastSeen (s data : Dict) (now : Int) :
    dictGet (upd s data now) "last_seen" = some (Val.int now) :=
  dictGet_dictSet_self _ _ _

theorem dictGet_upd_of_some (s data : Dict) (now : Int) (k : String) (v : Val)
    (hk : k ≠ "last_seen") (hnd : (data.map Prod.fst).Nodup)
    (h : dictGet data k = some v) : dictGet (upd s data now) k = some v := by
  unfold upd
  rw [dictGet_dictSet_ne _ _ _ _ hk]
  exact dictGet_dictUpdate_of_some data s k v hnd h

theorem dictGet_upd_of_none (s data : Dict) (now : Int) (k : String)
    (hk : k ≠ "last_seen") (h : dictGet data k = none) :
    dictGet (upd s data now) k = dictGet s k := by
  unfold upd
  rw [dictGet_dictSet_ne _ _ _ _ hk]
  exact dictGet_dictUpdate_of_none data s k h

theorem dictGet_newRec_of_ne (data : Dict) (now : Int) (k : String)
    (hk : k ≠ "last_seen") :
    dictGet (dictSet data "last_seen" (Val.int now)) k = dictGet data k :=
  dictGet_dictSet_ne _ _ _ _ hk

theorem dictGet_newRec_lastSeen (data : Dict) (now : Int) :
    dictGet (dictSet data "last_seen" (Val.int now)) "last_seen" = some (Val.int now) :=
  dictGet_dictSet_self _ _ _

/-! ## updateList lemmas -/

theorem updateList_eq_none_iff (servers : List Dict) (data : Dict) (now : Int) :
    updateList servers data now = none ↔ ∀ s ∈ servers, keyMatch s data = false := by
  induction servers with
  | nil => simp [updateList]
  | cons s rest ih =>
    by_cases h : keyMatch s data
    · simp [updateList, h]
    · simp [updateList, h, Option.map_eq_none', ih, Bool.eq_false_iff.mpr h]

theorem updateList_split (pre : List Dict) (s : Dict) (post : List Dict)
    (data : Dict) (now : Int)
    (hpre : ∀ x ∈ pre, keyMatch x data = false) (hs : keyMatch s data = true) :
    updateList (pre ++ s :: post) data now = some (pre ++ upd s data now :: post) := by
  induction pre with
  | nil => simp [updateList, hs]
  | cons x rest ih =>
    have hx : keyMatch x data = false := hpre x (by simp)
    have hrest : ∀ y ∈ rest, keyMatch y data = false := fun y hy => hpre y (by simp [hy])
    simp [updateList, hx, ih hrest]

theorem updateList_some_spec (servers : List Dict) (data : Dict) (now : Int)
    (l : List Dict) (h : updateList servers data now = some l) :
    ∃ pre s post, servers = pre ++ s :: post ∧
      (∀ x ∈ pre, keyMatch x data = false) ∧ keyMatch s data = true ∧
      l = pre ++ upd s data now :: post := by
  induction servers generalizing l with
  | nil => simp [updateList] at h
  | cons s rest ih =>
    by_cases hs : keyMatch s data
    · refine ⟨[], s, rest, by simp, by simp, hs, ?_⟩
      simp [updateList, hs] at h
      simp [h.symm]
    · simp [updateList, hs] at h
      obtain ⟨l2, hl2, hcons⟩ := h
      obtain ⟨pre, t, post, hsplit, hpre, ht, hl⟩ := ih l2 hl2
      refine ⟨s :: pre, t, post, by simp [hsplit], ?_, ht, by simp [hcons.symm, hl]⟩
      intro x hx
      rcases List.mem_cons.mp hx with hx | hx
      · subst hx
        exact Bool.eq_false_iff.mpr hs
      · exact hpre x hx

/-! ## Demo records used by witnesses -/

/-- Record whose last_seen is 61 seconds before the query time 100. -/
def recStale : Dict :=
  [("name", Val.str "Old"), ("public_ip", Val.str "1.1.1.1"), ("port", Val.int 7771),
   ("map", Val.str "Gridlock"), ("last_seen", Val.int 39)]

/-- Record whose last_seen is 59 seconds before the query time 100. -/
def recFresh : Dict :=
  [("name", Val.str "New"), ("public_ip", Val.str "1.1.1.2"), ("port", Val.int 7772),
   ("map", Val.str "Canals"), ("last_seen", Val.int 41)]

/-- Record whose last_seen is exactly 60 seconds before the query time 100. -/
def recEdge : Dict :=
  [("name", Val.str "Edge"), ("public_ip", Val.str "1.1.1.3"), ("port", Val.int 7773),
   ("map", Val.str "District"), ("last_seen", Val.int 40)]

/-- Store holding the three demo records. -/
def demoStore : List Dict := [recStale, recFresh, recEdge]

/-! ## Claim C2 -/

/-- Claim C2: get_servers returns exactly the stored records whose last_seen
lies strictly within the 60-second window before the query time: membership
in the response is equivalent to now - last_seen < 60, so a record aged 61
seconds is absent, one aged 59 seconds is present, and the boundary at
exactly 60 seconds is excluded. -/
theorem list_live_window (servers : List Dict) (now t : Int) (s : Dict)
    (hs : s ∈ servers) (hls : dictGet s "last_seen" = some (Val.int t)) :
    (s ∈ (get_servers servers now).2 ↔ now - t < 60)
    ∧ (t = now - 61 → s ∉ (get_servers servers now).2)
    ∧ (t = now - 59 → s ∈ (get_servers servers now).2)
    ∧ (t = now - 60 → s ∉ (get_servers servers now).2) := by
  have hfresh : freshB now s = decide (now - t < 60) := by
    simp [freshB, lastSeenVal, hls]
  have hmem : s ∈ (get_servers servers now).2 ↔ now - t < 60 := by
    simp [get_servers, List.mem_filter, hs, hfresh]
  refine ⟨hmem, ?_, ?_, ?_⟩
  · intro ht
    subst ht
    simp only [hmem]
    omega
  · intro ht
    subst ht
    exact hmem.mpr (by omega)
  · intro ht
    subst ht
    simp only [hmem]
    omega

/-- Witness for C2: in the demo store queried at time 100, the record last
seen at 41 (59 seconds old) is returned while the records last seen at 39
(61 seconds old) and 40 (60 seconds old) are not. -/
theorem list_live_window_witness :
    recFresh ∈ (get_servers demoStore 100).2
    ∧ recStale ∉ (get_servers demoStore 100).2
    ∧ recEdge ∉ (get_servers demoStore 100).2 :=
  ⟨(list_live_window demoStore 100 41 recFresh (by decide) (by decide)).2.2.1 (by decide),
   (list_live_window demoStore 100 39 recStale (by decide) (by decide)).2.1 (by decide),
   (list_live_window demoStore 100 40 recEdge (by decide) (by decide)).2.2.2 (by decide)⟩

/-! ## Claim C9 -/

/-- Claim C9: get_servers is pure and read-only: the stored list after the
call is exactly the stored list before it, and every record in the response
is a stored record returned verbatim (in particular no record and no
last_seen field is mutated by a read). -/
theorem list_live_pure (servers : List Dict) (now : Int) :
    (get_servers servers now).1 = servers
    ∧ ∀ r ∈ (get_servers servers now).2, r ∈ servers := by
  refine ⟨rfl, ?_⟩
  intro r hr
  exact (List.mem_filter.mp hr).1

/-- Witness for C9: reading the demo store at time 100 leaves it unchanged. -/
theorem list_live_pure_witness : (get_servers demoStore 100).1 = demoStore :=
  (list_live_pure demoStore 100).1

/-! ## Claim C3 -/

/-- Payload with all four required fields present but with the port bound
to a string, hence not a positive integer. -/
def badPortPayload : Dict :=
  [("name", Val.str "Alpha"), ("public_ip", Val.str "1.2.3.4"),
   ("port", Val.str "not-a-number"), ("map", Val.str "District")]

/-- Counterexample to claim C3 as stated: the claim requires announce to
fail with a 400 whenever the port is malformed (not a positive integer).
The payload badPortPayload carries a port bound to a string, yet add_server
accepts it with status 200 and inserts a record: the server checks only the
presence of the four required fields and never inspects the port value. -/
theorem announce_port_not_validated :
    dictGet badPortPayload "port" = some (Val.str "not-a-number")
    ∧ isPositiveIntVal (Val.str "not-a-number") = false
    ∧ validB badPortPayload = true
    ∧ (add_server [] badPortPayload 100).2 = 200
    ∧ (add_server [] badPortPayload 100).1 ≠ [] := by
  refine ⟨by decide, by decide, by decide, by decide, by decide⟩

/-- Claim C3 (amended): announce fails with a 400 response if and only if
some required field (name, public_ip, port, map) is absent from the payload
— the port value itself is never validated — and whenever it fails the
store is left completely unchanged. -/
theorem announce_validation (servers : List Dict) (data : Dict) (now : Int) :
    ((add_server servers data now).2 = 400 ↔ validB data = false)
    ∧ (validB data = false → (add_server servers data now).1 = servers) := by
  cases hv : validB data
  · simp [add_server, hv]
  · cases hul : updateList servers data now <;> simp [add_server, hv, hul]

/-- Witness for C3 (amended): announcing an empty payload to the demo store
is rejected with a 400 and leaves the store unchanged. -/
theorem announce_validation_witness :
    (add_server demoStore [] 7).2 = 400 ∧ (add_server demoStore [] 7).1 = demoStore :=
  ⟨(announce_validation demoStore [] 7).1.mpr (by decide),
   (announce_validation demoStore [] 7).2 (by decide)⟩

/-! ## Claim C10 -/

/-- Payload carrying the four required fields plus an additional field
named last_seen. -/
def lastSeenPayload : Dict :=
  [("name", Val.str "Alpha"), ("public_ip", Val.str "9.9.9.9"), ("port", Val.int 7777),
   ("map", Val.str "District"), ("last_seen", Val.int 999)]

/-- Payload carrying the four required fields plus an extra game_mode
field. -/
def extraPayload : Dict :=
  [("name", Val.str "Alpha"), ("public_ip", Val.str "2.2.2.2"), ("port", Val.int 7777),
   ("map", Val.str "District"), ("game_mode", Val.str "koth")]

/-- Counterexample to claim C10 as stated: the claim requires a successful
announce to store all payload fields verbatim for payloads with any
additional fields.  The payload lastSeenPayload carries an additional field
last_seen bound to 999, yet after announcing it at time 5 the single stored
record binds last_seen to 5: the server unconditionally overwrites a
payload-supplied last_seen with its own timestamp (server.py lines 21
and 26). -/
theorem announce_payload_lastSeen_overwritten :
    validB lastSeenPayload = true
    ∧ dictGet lastSeenPayload "last_seen" = some (Val.int 999)
    ∧ ((add_server [] lastSeenPayload 5).1.map (fun r => dictGet r "last_seen"))
        = [some (Val.int 5)] := by
  refine ⟨by decide, by decide, by decide⟩

/-- Claim C10 (amended): for every announce payload containing the four
required fields plus any additional fields, a successful announce stores
all payload fields other than last_seen verbatim (extra fields are merged
into the matched record on overwrite rather than discarded, and fields of
the old record absent from the payload are retained), the stored record's
last_seen is set server-side to the announce time (overriding any
payload-supplied last_seen), and the record is visible in the list response
evaluated at that time with all its fields: no schema whitelist is applied
beyond the presence check of the four required fields. -/
theorem announce_no_whitelist (servers : List Dict) (data : Dict) (now : Int)
    (hnd : (data.map Prod.fst).Nodup) (hv : validB data = true) :
    (updateList servers data now = none →
        (add_server servers data now).1 = servers ++ [dictSet data "last_seen" (Val.int now)]
      ∧ (∀ k, k ≠ "last_seen" →
          dictGet (dictSet data "last_seen" (Val.int now)) k = dictGet data k)
      ∧ dictGet (dictSet data "last_seen" (Val.int now)) "last_seen" = some (Val.int now)
      ∧ dictSet data "last_seen" (Val.int now) ∈ (get_servers (add_server servers data now).1 now).2)
    ∧ (∀ pre s post, servers = pre ++ s :: post → (∀ x ∈ pre, keyMatch x data = false) →
        keyMatch s data = true →
        (add_server servers data now).1 = pre ++ upd s data now :: post
      ∧ (∀ k v, k ≠ "last_seen" → dictGet data k = some v → dictGet (upd s data now) k = some v)
      ∧ (∀ k, k ≠ "last_seen" → dictGet data k = none → dictGet (upd s data now) k = dictGet s k)
      ∧ dictGet (upd s data now) "last_seen" = some (Val.int now)
      ∧ upd s data now ∈ (get_servers (add_server servers data now).1 now).2) := by
  constructor
  · intro hnone
    have hstore : (add_server servers data now).1
        = servers ++ [dictSet data "last_seen" (Val.int now)] := by
      simp [add_server, hv, hnone]
    refine ⟨hstore, fun k hk => dictGet_newRec_of_ne data now k hk,
            dictGet_newRec_lastSeen data now, ?_⟩
    rw [hstore]
    apply List.mem_filter.mpr
    refine ⟨by simp, ?_⟩
    simp only [freshB, lastSeenVal, dictGet_newRec_lastSeen, Option.getD_some]
    simp only [decide_eq_true_eq]
    omega
  · intro pre s post hsplit hpre hs
    have hul : updateList servers data now = some (pre ++ upd s data now :: post) := by
      rw [hsplit]
      exact updateList_split pre s post data now hpre hs
    have hstore : (add_server servers data now).1 = pre ++ upd s data now :: post := by
      simp [add_server, hv, hul]
    refine ⟨hstore, fun k v hk hkv => dictGet_upd_of_some s data now k v hk hnd hkv,
            fun k hk hkn => dictGet_upd_of_none s data now k hk hkn,
            dictGet_upd_lastSeen s data now, ?_⟩
    rw [hstore]
    apply List.mem_filter.mpr
    refine ⟨by simp, ?_⟩
    simp only [freshB, lastSeenVal, dictGet_upd_lastSeen, Option.getD_some]
    simp only [decide_eq_true_eq]
    omega

/-- Witness for C10 (amended): announcing a payload with an extra game_mode
field into an empty store inserts one record that still carries the extra
field, with last_seen set to the announce time. -/
theorem announce_no_whitelist_witness :
    (add_server [] extraPayload 5).1 = [dictSet extraPayload "last_seen" (Val.int 5)]
    ∧ dictGet (dictSet extraPayload "last_seen" (Val.int 5)) "game_mode"
        = some (Val.str "koth") := by
  have h := (announce_no_whitelist [] extraPayload 5 (by decide) (by decide)).1 rfl
  refine ⟨by simpa using h.1, ?_⟩
  rw [h.2.1 "game_mode" (by decide)]
  decide

/-! ## Claim C1 -/

/-- Freshness of a record whose last_seen equals the query time. -/
theorem freshB_now (r : Dict) (now : Int)
    (h : dictGet r "last_seen" = some (Val.int now)) : freshB now r = true := by
  simp only [freshB, lastSeenVal, h, Option.getD_some, decide_eq_true_eq]
  omega

/-- The update-loop match condition is exactly key equality with the
payload key. -/
theorem keyMatch_iff (data : Dict) (ip p : Val)
    (hip : dictGet data "public_ip" = some ip) (hp : dictGet data "port" = some p)
    (s : Dict) : keyMatch s data = true ↔ keyOf s = (some ip, some p) := by
  simp [keyMatch, keyOf, hip, hp, Prod.ext_iff]

/-- An updated record keeps the payload key. -/
theorem keyOf_upd (s data : Dict) (now : Int) (ip p : Val)
    (hnd : (data.map Prod.fst).Nodup)
    (hip : dictGet data "public_ip" = some ip) (hp : dictGet data "port" = some p) :
    keyOf (upd s data now) = (some ip, some p) := by
  unfold keyOf
  rw [dictGet_upd_of_some s data now _ _ (by decide) hnd hip,
      dictGet_upd_of_some s data now _ _ (by decide) hnd hp]

/-- A freshly inserted record carries the payload key. -/
theorem keyOf_newRec (data : Dict) (now : Int) (ip p : Val)
    (hip : dictGet data "public_ip" = some ip) (hp : dictGet data "port" = some p) :
    keyOf (dictSet data "last_seen" (Val.int now)) = (some ip, some p) := by
  unfold keyOf
  rw [dictGet_newRec_of_ne data now _ (by decide), dictGet_newRec_of_ne data now _ (by decide),
      hip, hp]

/-- One announce call preserves the store invariant that all records have
pairwise distinct (public_ip, port) keys. -/
theorem add_server_pairwise (servers : List Dict) (data : Dict) (now : Int) (ip p : Val)
    (hv : validB data = true) (hnd : (data.map Prod.fst).Nodup)
    (hip : dictGet data "public_ip" = some ip) (hp : dictGet data "port" = some p)
    (hInv : pairwiseKeys servers) : pairwiseKeys (add_server servers data now).1 := by
  cases hul : updateList servers data now with
  | none =>
    have hnm := (updateList_eq_none_iff servers data now).mp hul
    have hstore : (add_server servers data now).1
        = servers ++ [dictSet data "last_seen" (Val.int now)] := by
      simp [add_server, hv, hul]
    rw [hstore]
    unfold pairwiseKeys at hInv ⊢
    rw [List.pairwise_append]
    refine ⟨hInv, by simp, ?_⟩
    intro x hx b hb
    simp only [List.mem_singleton] at hb
    subst hb
    rw [keyOf_newRec data now ip p hip hp]
    intro hcontra
    have hkm := (keyMatch_iff data ip p hip hp x).mpr hcontra
    rw [hnm x hx] at hkm
    cases hkm
  | some l =>
    obtain ⟨pre, s, post, hsplit, hpre, hs, hl⟩ := updateList_some_spec servers data now l hul
    have hstore : (add_server servers data now).1 = l := by
      simp [add_server, hv, hul]
    rw [hstore, hl]
    have hks : keyOf s = (some ip, some p) := (keyMatch_iff data ip p hip hp s).mp hs
    have hku : keyOf (upd s data now) = (some ip, some p) := keyOf_upd s data now ip p hnd hip hp
    rw [hsplit] at hInv
    unfold pairwiseKeys at hInv ⊢
    rw [List.pairwise_append] at hInv ⊢
    obtain ⟨h1, h2, h3⟩ := hInv
    rw [List.pairwise_cons] at h2 ⊢
    refine ⟨h1, ⟨?_, h2.2⟩, ?_⟩
    · intro b hb
      have hsb := h2.1 b hb
      rw [hks] at hsb
      rw [hku]
      exact hsb
    · intro x hx b hb
      rcases List.mem_cons.mp hb with hb | hb
      · subst hb
        have hxs := h3 x hx s (by simp)
        rw [hks] at hxs
        rw [hku]
        exact hxs
      · exact h3 x hx b (by simp [hb])

/-- After one announce on an invariant store, the store holds exactly one
record with the payload key, and that record carries the payload's name
and map together with the server-set last_seen. -/
theorem add_server_key_filter (servers : List Dict) (data : Dict) (now : Int) (ip p : Val)
    (hv : validB data = true) (hnd : (data.map Prod.fst).Nodup)
    (hip : dictGet data "public_ip" = some ip) (hp : dictGet data "port" = some p)
    (hInv : pairwiseKeys servers) :
    ∃ r, (add_server servers data now).1.filter
        (fun x => decide (keyOf x = (some ip, some p))) = [r]
      ∧ dictGet r "name" = dictGet data "name"
      ∧ dictGet r "map" = dictGet data "map"
      ∧ dictGet r "last_seen" = some (Val.int now) := by
  have hall := List.all_eq_true.mp hv
  have hnameS := hall "name" (by decide)
  have hmapS := hall "map" (by decide)
  obtain ⟨nv, hnv⟩ := Option.isSome_iff_exists.mp hnameS
  obtain ⟨mv, hmv⟩ := Option.isSome_iff_exists.mp hmapS
  cases hul : updateList servers data now with
  | none =>
    have hnm := (updateList_eq_none_iff servers data now).mp hul
    have hstore : (add_server servers data now).1
        = servers ++ [dictSet data "last_seen" (Val.int now)] := by
      simp [add_server, hv, hul]
    refine ⟨dictSet data "last_seen" (Val.int now), ?_,
            dictGet_newRec_of_ne data now _ (by decide),
            dictGet_newRec_of_ne data now _ (by decide),
            dictGet_newRec_lastSeen data now⟩
    rw [hstore, List.filter_append]
    have h1 : servers.filter (fun x => decide (keyOf x = (some ip, some p))) = [] := by
      apply List.filter_eq_nil_iff.mpr
      intro a ha
      simp only [decide_eq_true_eq]
      intro hk
      have hkm := (keyMatch_iff data ip p hip hp a).mpr hk
      rw [hnm a ha] at hkm
      cases hkm
    rw [h1]
    simp [keyOf_newRec data now ip p hip hp]
  | some l =>
    obtain ⟨pre, s, post, hsplit, hpre, hs, hl⟩ := updateList_some_spec servers data now l hul
    have hstore : (add_server servers data now).1 = pre ++ upd s data now :: post := by
      simp [add_server, hv, hul, hl]
    have hks : keyOf s = (some ip, some p) := (keyMatch_iff data ip p hip hp s).mp hs
    have hku : keyOf (upd s data now) = (some ip, some p) := keyOf_upd s data now ip p hnd hip hp
    refine ⟨upd s data now, ?_, ?_, ?_, dictGet_upd_lastSeen s data now⟩
    · rw [hstore, show pre ++ upd s data now :: post
          = pre ++ [upd s data now] ++ post by simp, List.filter_append, List.filter_append]
      have hpref : pre.filter (fun x => decide (keyOf x = (some ip, some p))) = [] := by
        apply List.filter_eq_nil_iff.mpr
        intro a ha
        simp only [decide_eq_true_eq]
        intro hk
        have hkm := (keyMatch_iff data ip p hip hp a).mpr hk
        rw [hpre a ha] at hkm
        cases hkm
      have hpostf : post.filter (fun x => decide (keyOf x = (some ip, some p))) = [] := by
        apply List.filter_eq_nil_iff.mpr
        intro b hb
        simp only [decide_eq_true_eq]
        intro hk
        rw [hsplit] at hInv
        unfold pairwiseKeys at hInv
        rw [List.pairwise_append] at hInv
        have hsb := (List.pairwise_cons.mp hInv.2.1).1 b hb
        rw [hks, hk] at hsb
        exact hsb rfl
      rw [hpref, hpostf]
      simp [hku]
    · rw [dictGet_upd_of_some s data now "name" nv (by decide) hnd hnv, hnv]
    · rw [dictGet_upd_of_some s data now "map" mv (by decide) hnd hmv, hmv]

/-- Filtering the live listing by a key commutes with the freshness filter. -/
theorem live_filter_key (store : List Dict) (now : Int) (K : Option Val × Option Val)
    (r : Dict) (hfk : store.filter (fun x => decide (keyOf x = K)) = [r])
    (hfr : freshB now r = true) :
    (get_servers store now).2.filter (fun x => decide (keyOf x = K)) = [r] := by
  show (store.filter (fun s => freshB now s)).filter (fun x => decide (keyOf x = K)) = [r]
  rw [List.filter_filter, List.filter_congr (fun a _ => Bool.and_comm _ _),
      ← List.filter_filter, hfk]
  simp [hfr]

/-- Announcing one payload at a time folds left over the announce sequence. -/
theorem runAnns_cons (store : List Dict) (a : Dict × Int) (rest : List (Dict × Int)) :
    runAnns store (a :: rest) = runAnns (add_server store a.1 a.2).1 rest := rfl

/-- Splitting off the last announce of a sequence. -/
theorem runAnns_concat (store : List Dict) (pfx : List (Dict × Int)) (a : Dict) (t : Int) :
    runAnns store (pfx ++ [(a, t)]) = (add_server (runAnns store pfx) a t).1 := by
  simp [runAnns, List.foldl_append]

/-- The pairwise-distinct-keys invariant is preserved by any sequence of
valid same-key announces. -/
theorem runAnns_pairwise (ip p : Val) : ∀ (anns : List (Dict × Int)) (store : List Dict),
    pairwiseKeys store →
    (∀ a ∈ anns, validB a.1 = true ∧ (a.1.map Prod.fst).Nodup
      ∧ dictGet a.1 "public_ip" = some ip ∧ dictGet a.1 "port" = some p) →
    pairwiseKeys (runAnns store anns) := by
  intro anns
  induction anns with
  | nil =>
    intro store h _
    exact h
  | cons a rest ih =>
    intro store hInv hanns
    obtain ⟨hv, hnd, hip, hp⟩ := hanns a (by simp)
    rw [runAnns_cons]
    exact ih _ (add_server_pairwise store a.1 a.2 ip p hv hnd hip hp hInv)
      (fun x hx => hanns x (by simp [hx]))

/-- Claim C1: starting from any store satisfying the one-record-per-key
invariant (with well-formed records, whose public_ip and port fields are
present as Python requires), every sequence of valid announce calls
carrying the same (public_ip, port) pair keeps the invariant at every
point, and the list response evaluated immediately after a nonempty
sequence contains exactly one record for that pair, whose name, map and
last_seen are those of the most recent announce: a later announce
overwrites the earlier record rather than creating a duplicate. -/
theorem registry_single_record (store : List Dict) (anns : List (Dict × Int)) (ip p : Val)
    ( _hstore : ∀ s ∈ store, (dictGet s "public_ip").isSome ∧ (dictGet s "port").isSome)
    (hInv : pairwiseKeys store)
    (hanns : ∀ a ∈ anns, validB a.1 = true ∧ (a.1.map Prod.fst).Nodup
      ∧ dictGet a.1 "public_ip" = some ip ∧ dictGet a.1 "port" = some p) :
    (∀ pfx sfx, anns = pfx ++ sfx → pairwiseKeys (runAnns store pfx))
    ∧ (∀ pfx a t, anns = pfx ++ [(a, t)] →
        ((get_servers (runAnns store anns) t).2.filter
            (fun r => decide (keyOf r = (some ip, some p)))).map
          (fun r => (dictGet r "name", dictGet r "map", dictGet r "last_seen"))
        = [(dictGet a "name", dictGet a "map", some (Val.int t))]) := by
  constructor
  · intro pfx sfx heq
    exact runAnns_pairwise ip p pfx store hInv
      (fun x hx => hanns x (by rw [heq]; exact List.mem_append_left _ hx))
  · intro pfx a t heq
    have hpfx : ∀ x ∈ pfx, validB x.1 = true ∧ (x.1.map Prod.fst).Nodup
        ∧ dictGet x.1 "public_ip" = some ip ∧ dictGet x.1 "port" = some p :=
      fun x hx => hanns x (by rw [heq]; exact List.mem_append_left _ hx)
    obtain ⟨hv, hnd, hip, hp⟩ := hanns (a, t) (by rw [heq]; simp)
    have hPW := runAnns_pairwise ip p pfx store hInv hpfx
    obtain ⟨r, hfil, hname, hmap, hls⟩ :=
      add_server_key_filter (runAnns store pfx) a t ip p hv hnd hip hp hPW
    have hfr := freshB_now r t hls
    rw [heq, runAnns_concat,
        live_filter_key ((add_server (runAnns store pfx) a t).1) t (some ip, some p) r hfil hfr]
    simp [hname, hmap, hls]

/-- First announce payload of the C1 witness. -/
def annA : Dict :=
  [("name", Val.str "Alpha"), ("public_ip", Val.str "1.2.3.4"), ("port", Val.int 7777),
   ("map", Val.str "District")]

/-- Second announce payload of the C1 witness: same key, new name and map. -/
def annB : Dict :=
  [("name", Val.str "Beta"), ("public_ip", Val.str "1.2.3.4"), ("port", Val.int 7777),
   ("map", Val.str "Canals")]

/-- Witness for C1: announcing annA at time 0 and annB at time 3 into an
empty store, the list response at time 3 carries exactly one record for the
shared key, with annB's name and map and with last_seen 3. -/
theorem registry_single_record_witness :
    ((get_servers (runAnns [] [(annA, 0), (annB, 3)]) 3).2.filter
        (fun r => decide (keyOf r = (some (Val.str "1.2.3.4"), some (Val.int 7777))))).map
      (fun r => (dictGet r "name", dictGet r "map", dictGet r "last_seen"))
    = [(some (Val.str "Beta"), some (Val.str "Canals"), some (Val.int 3))] := by
  have h := (registry_single_record [] [(annA, 0), (annB, 3)] (Val.str "1.2.3.4")
    (Val.int 7777) (by decide) (by decide) (by decide)).2 [(annA, 0)] annB 3 rfl
  exact h.trans (by decide)

/-! ## Heartbeat client model (ez_browser.py, _hb_loop) -/

/-- Outcome of one announce attempt in the heartbeat loop: an HTTP response
with a status code, or an exception (network or transport error). -/
inductive Outcome where
  | ok : Nat → Outcome
  | err : Outcome
deriving DecidableEq

/-- Success test of the loop (ez_browser.py line 435): status in [200, 300). -/
def isSuccessCode (st : Nat) : Bool := decide (200 ≤ st) && decide (st < 300)

/-- An announce failure in the sense of the heartbeat loop: a transport
error or a non-success response. -/
def isFailure : Outcome → Bool
  | Outcome.ok st => ! isSuccessCode st
  | Outcome.err => true

/-- One iteration body of _hb_loop (ez_browser.py lines 431-442): on a
success response the failure counter resets to 0 and the lime (healthy)
colour is emitted; otherwise the counter is incremented; afterwards, if the
counter has reached 2, the red (degraded) colour is emitted.  Returns the
new counter and the emitted colour signals in order. -/
def hbBody (failures : Nat) (o : Outcome) : Nat × List String :=
  let r : Nat × List String :=
    match o with
    | Outcome.ok st => if isSuccessCode st then (0, ["lime"]) else (failures + 1, [])
    | Outcome.err => (failures + 1, [])
  (r.1, r.2 ++ (if 2 ≤ r.1 then ["red"] else []))

/-- Observable events of the heartbeat loop: an announce attempt with its
outcome, a colour signal emission, or a wait of a given duration in
seconds. -/
inductive HbEv where
  | announce : Outcome → HbEv
  | emitColor : String → HbEv
  | wait : Nat → HbEv
deriving DecidableEq

/-- Cancellation model for the stop event of a loop run: none when the
supervisor never cancels, or some (j, w) when the event is set w seconds
into the wait of cycle j (threading.Event is never cleared once set). -/
abbrev Cancel := Option (Nat × Nat)

/-- Whether stop_event.is_set() observes the cancellation at the top of
cycle i (ez_browser.py line 431): the event set during cycle j is seen from
cycle j+1 on. -/
def stopIsSet (cancel : Cancel) (i : Nat) : Bool :=
  match cancel with
  | none => false
  | some (j, _) => decide (j < i)

/-- Duration of the interruptible stop_event.wait of cycle i (ez_browser.py
line 443, HEARTBEAT_INTERVAL = 5): the full 5 seconds, except in the cycle
during whose wait the event is set, where the wait returns as soon as the
event is set. -/
def waitDur (cancel : Cancel) (i : Nat) : Nat :=
  match cancel with
  | none => 5
  | some (j, w) => if i = j then min w 5 else 5

/-- The _hb_loop of ez_browser.py (lines 429-443) as an event-trace
producer: given the announce outcome of each cycle, the cancellation
moment, the current failure counter, the current cycle index and a fuel
bound on observed cycles, it checks the stop event, performs one announce,
emits the body's colour signals, waits, and recurses with the updated
counter. -/
def hbLoop (outcomes : Nat → Outcome) (cancel : Cancel) : Nat → Nat → Nat → List HbEv
  | _, _, 0 => []
  | f, i, fuel + 1 =>
    if stopIsSet cancel i then []
    else
      HbEv.announce (outcomes i) :: ((hbBody f (outcomes i)).2.map HbEv.emitColor ++
        (HbEv.wait (waitDur cancel i) :: hbLoop outcomes cancel (hbBody f (outcomes i)).1 (i + 1) fuel))

/-- Selects the announce and wait events of a trace, dropping colour
emissions. -/
def isCore : HbEv → Bool
  | HbEv.emitColor _ => false
  | HbEv.announce _ => true
  | HbEv.wait _ => true

/-- Core (announce/wait) subtrace of a heartbeat trace. -/
def coreEvs (t : List HbEv) : List HbEv := t.filter isCore

/-- Number of cycles the loop actually executes when started at cycle i
with the given fuel: all of them without cancellation, and none past
cycle j when the event is set during cycle j. -/
def execCount (cancel : Cancel) (i fuel : Nat) : Nat :=
  match cancel with
  | none => fuel
  | some (j, _) => if j < i then 0 else min fuel (j + 1 - i)

/-! ## Claim C4 -/

/-- Claim C4: in the heartbeat loop body, from any failure count, two
consecutive failed announce attempts (transport error or non-success
response) each increment the consecutive-failure counter and the second
one makes the loop report the degraded (red) status; a subsequent
successful announce (status in [200, 300)) resets the counter to 0 and
reports the healthy (lime) status. -/
theorem hb_degraded_then_healthy (f : Nat) (o1 o2 : Outcome) (st : Nat)
    (h1 : isFailure o1 = true) (h2 : isFailure o2 = true)
    (hs : isSuccessCode st = true) :
    (hbBody f o1).1 = f + 1
    ∧ (hbBody (f + 1) o2).1 = f + 2
    ∧ (hbBody (f + 1) o2).2 = ["red"]
    ∧ hbBody (f + 2) (Outcome.ok st) = (0, ["lime"]) := by
  have hb1 : (hbBody f o1).1 = f + 1 := by
    cases o1 with
    | err => simp [hbBody]
    | ok st1 =>
      simp only [isFailure, Bool.not_eq_true'] at h1
      simp [hbBody, h1]
  have hb2 : hbBody (f + 1) o2 = (f + 2, ["red"]) := by
    cases o2 with
    | err => simp [hbBody]
    | ok st2 =>
      simp only [isFailure, Bool.not_eq_true'] at h2
      simp [hbBody, h2]
  refine ⟨hb1, by rw [hb2], by rw [hb2], by simp [hbBody, hs]⟩

/-- Witness for C4: starting healthy, two transport errors then a 200
response: the counter goes 1, 2, the degraded signal is emitted on the
second failure, and the success resets the counter and emits healthy. -/
theorem hb_degraded_then_healthy_witness :
    (hbBody 0 Outcome.err).1 = 0 + 1
    ∧ (hbBody (0 + 1) Outcome.err).1 = 0 + 2
    ∧ (hbBody (0 + 1) Outcome.err).2 = ["red"]
    ∧ hbBody (0 + 2) (Outcome.ok 200) = (0, ["lime"]) :=
  hb_degraded_then_healthy 0 Outcome.err Outcome.err 200 rfl rfl (by decide)

/-! ## Claim C8 -/

/-- Closed form of the core subtrace of a heartbeat run: one announce
followed by one wait per executed cycle. -/
theorem coreEvs_hbLoop (outcomes : Nat → Outcome) (cancel : Cancel) :
    ∀ (fuel f i : Nat),
      coreEvs (hbLoop outcomes cancel f i fuel)
        = (List.range' i (execCount cancel i fuel)).flatMap
            (fun k => [HbEv.announce (outcomes k), HbEv.wait (waitDur cancel k)]) := by
  intro fuel
  induction fuel with
  | zero =>
    intro f i
    cases cancel with
    | none => simp [hbLoop, coreEvs, execCount]
    | some jw => simp [hbLoop, coreEvs, execCount]
  | succ fuel ih =>
    intro f i
    by_cases hstop : stopIsSet cancel i = true
    · cases cancel with
      | none => simp [stopIsSet] at hstop
      | some jw =>
        obtain ⟨j, w⟩ := jw
        simp only [stopIsSet, decide_eq_true_eq] at hstop
        simp [hbLoop, stopIsSet, hstop, coreEvs, execCount]
    · have hcount : execCount cancel i (fuel + 1) = execCount cancel (i + 1) fuel + 1 := by
        cases cancel with
        | none => simp [execCount]
        | some jw =>
          obtain ⟨j, w⟩ := jw
          simp only [stopIsSet, decide_eq_true_eq] at hstop
          have hij : i ≤ j := Nat.le_of_not_lt hstop
          simp only [execCount]
          rcases Nat.lt_or_ge i j with hij2 | hij2
          · have h1 : ¬ j < i := Nat.not_lt.mpr (Nat.le_of_lt hij2)
            have h2 : ¬ j < i + 1 := Nat.not_lt.mpr hij2
            simp only [h1, h2, if_false]
            omega
          · have hji : i = j := Nat.le_antisymm hij hij2
            subst hji
            simp only [Nat.not_lt.mpr (Nat.le_refl i), if_false, Nat.lt_succ_self, if_true]
            omega
      have hrange : List.range' i (execCount cancel i (fuel + 1))
          = i :: List.range' (i + 1) (execCount cancel (i + 1) fuel) := by
        rw [hcount]
        rfl
      rw [hbLoop]
      simp only [hstop, Bool.false_eq_true, if_false]
      rw [hrange]
      simp only [List.flatMap_cons]
      rw [show coreEvs (HbEv.announce (outcomes i) :: ((hbBody f (outcomes i)).2.map HbEv.emitColor ++
            (HbEv.wait (waitDur cancel i) :: hbLoop outcomes cancel (hbBody f (outcomes i)).1 (i + 1) fuel)))
          = HbEv.announce (outcomes i) :: (HbEv.wait (waitDur cancel i) ::
              coreEvs (hbLoop outcomes cancel (hbBody f (outcomes i)).1 (i + 1) fuel)) from ?_]
      · rw [ih]
        simp
      · simp only [coreEvs, List.filter_cons, List.filter_append, List.filter_map, isCore]
        simp [Function.comp, isCore]

/-- Claim C8: the core event trace of every heartbeat loop run consists of
exactly one announce attempt followed by one wait per cycle.  Without
cancellation every wait lasts the full 5-second interval.  When the stop
event is set w seconds (w < 5) into the wait of cycle j, that wait ends
immediately at w, every earlier wait lasts 5 seconds, and no announce is
ever issued after the pending wait completes: the trace stops at cycle j
no matter how much fuel remains. -/
theorem hb_loop_cadence (outcomes : Nat → Outcome) (fuel j w : Nat) (hw : w ≤ 5) :
    coreEvs (hbLoop outcomes none 0 0 fuel)
      = (List.range fuel).flatMap (fun k => [HbEv.announce (outcomes k), HbEv.wait 5])
    ∧ coreEvs (hbLoop outcomes (some (j, w)) 0 0 fuel)
      = (List.range (min fuel (j + 1))).flatMap
          (fun k => [HbEv.announce (outcomes k), HbEv.wait (if k = j then w else 5)]) := by
  constructor
  · rw [coreEvs_hbLoop outcomes none fuel 0 0]
    simp [execCount, waitDur, List.range_eq_range']
  · rw [coreEvs_hbLoop outcomes (some (j, w)) fuel 0 0]
    simp only [execCount, Nat.not_lt_zero, if_false, Nat.sub_zero, List.range_eq_range']
    have hmin : min w 5 = w := Nat.min_eq_left hw
    simp [waitDur, hmin]

/-- Witness for C8: with three cycles of fuel and cancellation arriving 2
seconds into the wait of cycle 1, the loop announces in cycles 0 and 1
only, waits 5 seconds after cycle 0 and 2 seconds after cycle 1, and never
announces again. -/
theorem hb_loop_cadence_witness :
    coreEvs (hbLoop (fun _ => Outcome.err) (some (1, 2)) 0 0 3)
      = [HbEv.announce Outcome.err, HbEv.wait 5, HbEv.announce Outcome.err, HbEv.wait 2] := by
  have h := (hb_loop_cadence (fun _ => Outcome.err) 3 1 2 (by decide)).2
  rw [h]
  rfl

/-! ## Launch orchestrator model (ez_browser.py, launch_selected) -/

/-- The Host dataclass of ez_browser.py (lines 80-89). -/
structure Host where
  id : String
  name : String
  public_ip : String
  local_ip : String
  port : Int
  map : String
  password : String
  exe_path : String
deriving DecidableEq

/-- Side effects of the launch path: a process spawn with its argument
list, or a blocking sleep of a given number of seconds. -/
inductive LaunchEv where
  | spawn : List String → LaunchEv
  | sleep : Nat → LaunchEv
deriving DecidableEq

/-- Fixed dedicated-server argument template of the host path
(ez_browser.py line 370). -/
def serverArgs (exe : String) (cfg : Host) : List String :=
  [exe, "server", cfg.map ++ ".gear?game=koth?MaxPlayers=10?bots=6?",
   "-port=" ++ toString cfg.port, "-useallavailablecores", "-log"]

/-- Client connection argument: ip and port joined by a colon
(ez_browser.py lines 372 and 377). -/
def endpointArg (ipStr : String) (port : Int) : String :=
  ipStr ++ ":" ++ toString port

/-- The launch decision of launch_selected for a selected own server
(ez_browser.py lines 367-379), as the sequence of process side effects:
ok is the dialog confirmation flag and pw the entered password.  When the
dialog is confirmed and the password equals the stored one, the host path
spawns the dedicated server, sleeps the fixed 10-second warm-up, then
spawns a client at the local endpoint; otherwise the guest path spawns a
single client at the public endpoint. -/
def launch_selected (cfg : Host) (exe : String) (ok : Bool) (pw : String) : List LaunchEv :=
  if ok = true ∧ pw = cfg.password then
    [LaunchEv.spawn (serverArgs exe cfg), LaunchEv.sleep 10,
     LaunchEv.spawn [exe, endpointArg cfg.local_ip cfg.port]]
  else
    [LaunchEv.spawn [exe, endpointArg cfg.public_ip cfg.port]]

/-- Spawn events of a launch trace. -/
def isSpawn : LaunchEv → Bool
  | LaunchEv.spawn _ => true
  | LaunchEv.sleep _ => false

/-! ## Claim C5 -/

/-- Claim C5: if the entered password exactly equals the stored password
(a blank entry matches only an empty stored password, by string equality),
the launch trace is exactly two spawns — first the dedicated server with
the fixed argument template, then, separated by the fixed 10-second
warm-up sleep, a client at the local ip and port; if the entered password
differs from the stored one, the trace is exactly one spawn, a client at
the public ip and port, with no server process. -/
theorem launch_password_gate (cfg : Host) (exe pw : String) :
    (pw = cfg.password →
      launch_selected cfg exe true pw
        = [LaunchEv.spawn (serverArgs exe cfg), LaunchEv.sleep 10,
           LaunchEv.spawn [exe, endpointArg cfg.local_ip cfg.port]]
      ∧ ((launch_selected cfg exe true pw).filter isSpawn).length = 2)
    ∧ (pw ≠ cfg.password →
      launch_selected cfg exe true pw
        = [LaunchEv.spawn [exe, endpointArg cfg.public_ip cfg.port]]
      ∧ ((launch_selected cfg exe true pw).filter isSpawn).length = 1) := by
  constructor
  · intro hpw
    have htr : launch_selected cfg exe true pw
        = [LaunchEv.spawn (serverArgs exe cfg), LaunchEv.sleep 10,
           LaunchEv.spawn [exe, endpointArg cfg.local_ip cfg.port]] := by
      simp [launch_selected, hpw]
    refine ⟨htr, ?_⟩
    rw [htr]
    rfl
  · intro hpw
    have htr : launch_selected cfg exe true pw
        = [LaunchEv.spawn [exe, endpointArg cfg.public_ip cfg.port]] := by
      simp [launch_selected, hpw]
    refine ⟨htr, ?_⟩
    rw [htr]
    rfl

/-- Host configuration used by the C5 witness, with stored password abc. -/
def demoHost : Host :=
  { id := "h1", name := "Alpha", public_ip := "1.2.3.4", local_ip := "192.168.0.2",
    port := 7777, map := "District", password := "abc", exe_path := "C:/game.exe" }

/-- Witness for C5: entering abc against the stored abc takes the host
path (server spawn, 10-second sleep, local client spawn); entering a blank
password against stored abc takes the guest path (single public client
spawn). -/
theorem launch_password_gate_witness :
    launch_selected demoHost "game.exe" true "abc"
      = [LaunchEv.spawn (serverArgs "game.exe" demoHost), LaunchEv.sleep 10,
         LaunchEv.spawn ["game.exe", endpointArg "192.168.0.2" 7777]]
    ∧ launch_selected demoHost "game.exe" true ""
      = [LaunchEv.spawn ["game.exe", endpointArg "1.2.3.4" 7777]] :=
  ⟨((launch_password_gate demoHost "game.exe" "abc").1 rfl).1,
   ((launch_password_gate demoHost "game.exe" "").2 (by decide)).1⟩

/-! ## Heartbeat supervisor model (ez_browser.py, manual start/stop) -/

/-- Result reported by the start action: a new heartbeat loop was started,
or the already-running message was shown. -/
inductive StartResult where
  | started : StartResult
  | alreadyRunning : StartResult
deriving DecidableEq

/-- Result reported by the stop-all action: all heartbeats stopped, or the
no-active-heartbeat message was shown. -/
inductive StopResult where
  | stopped : StopResult
  | nothingRunning : StopResult
deriving DecidableEq

/-- Supervisor state: a heap of threading.Event objects (indexed by
allocation order; true means the event is set), the hb_threads dict from
host id to its stop event, and the list of spawned loop threads, each
holding the host id it serves and its stop event. -/
structure SupState where
  events : List Bool
  hb_threads : List (String × Nat)
  threads : List (String × Nat)
deriving DecidableEq

/-- The duplicate check of manual_start_heartbeat (ez_browser.py line 409):
hb_threads holds a stop event for the id and that event is not set. -/
def hbActive (st : SupState) (id : String) : Bool :=
  match lookupA st.hb_threads id with
  | some ei => decide (st.events[ei]? = some false)
  | none => false

/-- The manual_start_heartbeat action of ez_browser.py (lines 402-415) for
a selected host id: if hb_threads holds a not-yet-set stop event for the
id, reports already running and changes nothing; otherwise allocates a
fresh cleared event, installs it in hb_threads under the id, and spawns a
new loop thread on it. -/
def manual_start_heartbeat (st : SupState) (id : String) : SupState × StartResult :=
  if hbActive st id then (st, StartResult.alreadyRunning)
  else
    let n := st.events.length
    (⟨st.events ++ [false], setA st.hb_threads id n, st.threads ++ [(id, n)]⟩,
     StartResult.started)

/-- The iteration of manual_stop_heartbeat over the tracked events
(ez_browser.py lines 419-421): set every event that is not yet set,
recording whether any was actually running. -/
def stopFold : List (String × Nat) → List Bool × Bool → List Bool × Bool
  | [], acc => acc
  | kv :: rest, acc =>
    stopFold rest (if acc.1[kv.2]? = some false then (acc.1.set kv.2 true, true) else acc)

/-- The manual_stop_heartbeat action of ez_browser.py (lines 417-427):
signals every tracked stop event, clears the hb_threads dict, and reports
whether any heartbeat was actually running. -/
def manual_stop_heartbeat (st : SupState) : SupState × StopResult :=
  let r := stopFold st.hb_threads (st.events, false)
  (⟨r.1, [], st.threads⟩, if r.2 then StopResult.stopped else StopResult.nothingRunning)

/-- Number of heartbeat loops currently running (stop event not set) for a
given host id. -/
def runningFor (st : SupState) (id : String) : Nat :=
  (st.threads.filter (fun kv => decide (kv.1 = id) && decide (st.events[kv.2]? = some false))).length

/-! ## Claim C6 -/

/-- Claim C6: if the supervisor has no active (non-stopped) session for a
host identity and no running loop serves it, then starting a heartbeat
succeeds; a second start for the same identity without an intervening stop
reports already running, causes no state change at all, and exactly one
underlying heartbeat loop is running for that identity afterwards. -/
theorem start_heartbeat_duplicate (st : SupState) (id : String)
    (hidle : hbActive st id = false)
    (hnoloop : ∀ kv ∈ st.threads, kv.1 = id → st.events[kv.2]? ≠ some false)
    (hidx : ∀ kv ∈ st.threads, kv.2 < st.events.length) :
    (manual_start_heartbeat st id).2 = StartResult.started
    ∧ (manual_start_heartbeat (manual_start_heartbeat st id).1 id).2
        = StartResult.alreadyRunning
    ∧ (manual_start_heartbeat (manual_start_heartbeat st id).1 id).1
        = (manual_start_heartbeat st id).1
    ∧ runningFor (manual_start_heartbeat st id).1 id = 1 := by
  have hfresh : ∀ (st2 : SupState), hbActive st2 id = false →
      manual_start_heartbeat st2 id
        = (⟨st2.events ++ [false], setA st2.hb_threads id st2.events.length,
            st2.threads ++ [(id, st2.events.length)]⟩, StartResult.started) := by
    intro st2 h
    simp [manual_start_heartbeat, h]
  have halready : ∀ (st2 : SupState), hbActive st2 id = true →
      manual_start_heartbeat st2 id = (st2, StartResult.alreadyRunning) := by
    intro st2 h
    simp [manual_start_heartbeat, h]
  have heq1 : manual_start_heartbeat st id
      = (⟨st.events ++ [false], setA st.hb_threads id st.events.length,
          st.threads ++ [(id, st.events.length)]⟩, StartResult.started) :=
    hfresh st hidle
  have hact2 : hbActive (manual_start_heartbeat st id).1 id = true := by
    rw [heq1]
    simp only [hbActive]
    rw [lookupA_setA_self]
    simp [List.getElem?_concat_length]
  have heq2 : manual_start_heartbeat (manual_start_heartbeat st id).1 id
      = ((manual_start_heartbeat st id).1, StartResult.alreadyRunning) :=
    halready _ hact2
  refine ⟨by rw [heq1], by rw [heq2], by rw [heq2], ?_⟩
  rw [heq1]
  simp only [runningFor, List.filter_append]
  have hold : st.threads.filter
      (fun kv => decide (kv.1 = id) && decide ((st.events ++ [false])[kv.2]? = some false))
      = [] := by
    apply List.filter_eq_nil_iff.mpr
    intro kv hkv
    by_cases hkid : kv.1 = id
    · have hlt := hidx kv hkv
      have hsame : (st.events ++ [false])[kv.2]? = st.events[kv.2]? :=
        List.getElem?_append_left hlt
      have hne := hnoloop kv hkv hkid
      simp [hsame, hne]
    · simp [hkid]
  rw [hold]
  have hnew : (st.events ++ [false])[st.events.length]? = some false :=
    List.getElem?_concat_length st.events false
  simp [hnew]

/-- Supervisor state with no sessions at all. -/
def emptySup : SupState := ⟨[], [], []⟩

/-- Witness for C6: starting twice from the empty supervisor state, the
first start succeeds, the second reports already running without touching
the state, and one loop runs for the identity. -/
theorem start_heartbeat_duplicate_witness :
    (manual_start_heartbeat emptySup "srv").2 = StartResult.started
    ∧ (manual_start_heartbeat (manual_start_heartbeat emptySup "srv").1 "srv").2
        = StartResult.alreadyRunning
    ∧ (manual_start_heartbeat (manual_start_heartbeat emptySup "srv").1 "srv").1
        = (manual_start_heartbeat emptySup "srv").1
    ∧ runningFor (manual_start_heartbeat emptySup "srv").1 "srv" = 1 :=
  start_heartbeat_duplicate emptySup "srv" (by decide) (by decide) (by decide)

/-! ## Claim C7 -/

/-- Setting one tracked event preserves the event-heap length. -/
theorem stopFold_length : ∀ (l : List (String × Nat)) (evs : List Bool) (b : Bool),
    (stopFold l (evs, b)).1.length = evs.length := by
  intro l
  induction l with
  | nil =>
    intro evs b
    rfl
  | cons kv rest ih =>
    intro evs b
    simp only [stopFold]
    split
    · rw [ih]
      exact List.length_set evs kv.2 true
    · exact ih evs b

/-- An event already set stays set through the teardown iteration. -/
theorem stopFold_true_stable : ∀ (l : List (String × Nat)) (evs : List Bool) (b : Bool)
    (i : Nat), evs[i]? = some true → (stopFold l (evs, b)).1[i]? = some true := by
  intro l
  induction l with
  | nil =>
    intro evs b i h
    exact h
  | cons kv rest ih =>
    intro evs b i h
    simp only [stopFold]
    split
    · apply ih
      by_cases hi : kv.2 = i
      · subst hi
        rcases List.getElem?_eq_some_iff.mp h with ⟨hlt, _⟩
        rw [List.getElem?_set_self hlt]
      · rw [List.getElem?_set_ne hi]
        exact h
    · exact ih evs b i h

/-- Every tracked event is set after the teardown iteration. -/
theorem stopFold_sets : ∀ (l : List (String × Nat)) (evs : List Bool) (b : Bool),
    (∀ kv ∈ l, kv.2 < evs.length) →
    ∀ kv ∈ l, (stopFold l (evs, b)).1[kv.2]? = some true := by
  intro l
  induction l with
  | nil =>
    intro evs b _ kv hkv
    cases hkv
  | cons kv0 rest ih =>
    intro evs b hbound kv hkv
    rcases List.mem_cons.mp hkv with hkv | hkv
    · subst hkv
      have hlt := hbound kv (by simp)
      simp only [stopFold]
      split
      · apply stopFold_true_stable
        exact List.getElem?_set_self hlt
      · rename_i hcond
        have hsome : evs[kv.2]? = some true := by
          cases hev : evs[kv.2]? with
          | none =>
            rcases List.getElem?_eq_none_iff.mp hev with hge
            omega
          | some bv =>
            cases bv with
            | false => exact absurd hev hcond
            | true => rfl
        exact stopFold_true_stable rest evs b kv.2 hsome
    · simp only [stopFold]
      split
      · apply ih (evs.set kv0.2 true) true
        · intro kv2 hkv2
          rw [List.length_set]
          exact hbound kv2 (by simp [hkv2])
        · exact hkv
      · exact ih evs b (fun kv2 hkv2 => hbound kv2 (by simp [hkv2])) kv hkv

/-- Once the any-running flag is raised it stays raised. -/
theorem stopFold_flag_mono : ∀ (l : List (String × Nat)) (evs : List Bool),
    (stopFold l (evs, true)).2 = true := by
  intro l
  induction l with
  | nil =>
    intro evs
    rfl
  | cons kv rest ih =>
    intro evs
    simp only [stopFold]
    split
    · exact ih _
    · exact ih evs

/-- The any-running flag is raised exactly when some tracked event was not
yet set at teardown time. -/
theorem stopFold_flag_iff : ∀ (l : List (String × Nat)) (evs : List Bool),
    (stopFold l (evs, false)).2 = true ↔ ∃ kv ∈ l, evs[kv.2]? = some false := by
  intro l
  induction l with
  | nil =>
    intro evs
    simp [stopFold]
  | cons kv0 rest ih =>
    intro evs
    simp only [stopFold]
    by_cases h : evs[kv0.2]? = some false
    · rw [if_pos h]
      rw [stopFold_flag_mono rest (evs.set kv0.2 true)]
      constructor
      · intro _
        exact ⟨kv0, by simp, h⟩
      · intro _
        rfl
    · rw [if_neg h, ih evs]
      constructor
      · rintro ⟨kv, hkv, hf⟩
        exact ⟨kv, by simp [hkv], hf⟩
      · rintro ⟨kv, hkv, hf⟩
        rcases List.mem_cons.mp hkv with hkv | hkv
        · subst hkv
          exact absurd hf h
        · exact ⟨kv, hkv, hf⟩

/-- Claim C7: stop-all sets the stop event of every tracked session — the
teardown is attempted for every entry even when some tracked events are
already set — leaves the tracking table empty afterwards, and reports that
sessions were stopped exactly when at least one tracked session was still
active (its event not yet set), reporting nothing-to-stop otherwise. -/
theorem stop_all_semantics (st : SupState)
    (hidx : ∀ kv ∈ st.hb_threads, kv.2 < st.events.length) :
    (manual_stop_heartbeat st).1.hb_threads = []
    ∧ (∀ kv ∈ st.hb_threads, (manual_stop_heartbeat st).1.events[kv.2]? = some true)
    ∧ ((manual_stop_heartbeat st).2 = StopResult.stopped
        ↔ ∃ kv ∈ st.hb_threads, st.events[kv.2]? = some false)
    ∧ ((manual_stop_heartbeat st).2 = StopResult.nothingRunning
        ↔ ¬ ∃ kv ∈ st.hb_threads, st.events[kv.2]? = some false) := by
  have hflag := stopFold_flag_iff st.hb_threads st.events
  have h3 : (manual_stop_heartbeat st).2 = StopResult.stopped
      ↔ (stopFold st.hb_threads (st.events, false)).2 = true := by
    show (if (stopFold st.hb_threads (st.events, false)).2 then StopResult.stopped
          else StopResult.nothingRunning) = StopResult.stopped ↔ _
    cases hb : (stopFold st.hb_threads (st.events, false)).2 <;> simp [hb]
  have h4 : (manual_stop_heartbeat st).2 = StopResult.nothingRunning
      ↔ ¬ (stopFold st.hb_threads (st.events, false)).2 = true := by
    show (if (stopFold st.hb_threads (st.events, false)).2 then StopResult.stopped
          else StopResult.nothingRunning) = StopResult.nothingRunning ↔ _
    cases hb : (stopFold st.hb_threads (st.events, false)).2 <;> simp [hb]
  refine ⟨rfl, ?_, h3.trans hflag, h4.trans (not_congr hflag)⟩
  intro kv hkv
  show (stopFold st.hb_threads (st.events, false)).1[kv.2]? = some true
  exact stopFold_sets st.hb_threads st.events false hidx kv hkv

/-- Supervisor state with two active sessions and one already stopped. -/
def busySup : SupState :=
  ⟨[false, true, false], [("a", 0), ("b", 1), ("c", 2)], [("a", 0), ("b", 1), ("c", 2)]⟩

/-- Supervisor state whose only tracked session is already stopped. -/
def idleSup : SupState := ⟨[true], [("a", 0)], [("a", 0)]⟩

/-- Witness for C7: on a state with two active sessions and one already
stopped, stop-all clears the table, sets every tracked event (including
the already-set one) and reports stopped; on a state with no active
session it reports nothing to stop. -/
theorem stop_all_semantics_witness :
    (manual_stop_heartbeat busySup).1.hb_threads = []
    ∧ (manual_stop_heartbeat busySup).1.events[0]? = some true
    ∧ (manual_stop_heartbeat busySup).1.events[1]? = some true
    ∧ (manual_stop_heartbeat busySup).1.events[2]? = some true
    ∧ (manual_stop_heartbeat busySup).2 = StopResult.stopped
    ∧ (manual_stop_heartbeat idleSup).2 = StopResult.nothingRunning := by
  have h := stop_all_semantics busySup (by decide)
  have h2 := stop_all_semantics idleSup (by decide)
  exact ⟨h.1, h.2.1 ("a", 0) (by decide), h.2.1 ("b", 1) (by decide),
    h.2.1 ("c", 2) (by decide), h.2.2.1.mpr ⟨("a", 0), by decide, by decide⟩,
    h2.2.2.2.mpr (by decide)⟩

end EzBrowser
